import Mathlib

/-!
Verification of the statistics aggregation engine of the job-search-tracker
API (`app/services/statistics_service.py`) against its natural-language
specification.

The data model and the operations are shallowly embedded from the source:

* Python `date` values become `JobTracker.PyDate` (year/month/day with the
  validity invariant Python's `date` constructor enforces on the fields we
  use); comparison of dates is lexicographic on (year, month, day), exactly
  as CPython compares `date` objects, and `date` subtraction goes through
  the proleptic-Gregorian ordinal, exactly as CPython's `toordinal` does.
* Python `datetime` values become `JobTracker.PyDateTime`, a calendar date
  plus a sub-day component; comparison is lexicographic, and `.date()` is
  projection on the first component.
* Python float percentages are embedded as rationals; `round(x, n)` is
  embedded as round-half-to-even at `n` decimal digits (CPython's `round`
  is round-half-to-even on the underlying value).  The binary floating
  point representation itself is not modelled.
* SQLAlchemy relationship `position.interviews` is embedded as filtering
  the interview list on `position_id`; the data-access collaborator is
  embedded by passing the fetched position and interview lists directly,
  as the spec's collaborator interface (§6) prescribes.
-/

namespace JobTracker

/-- Round-half-to-even of a rational to an integer: the embedding of what
CPython's `round` does with the value it is given (ties go to the even
neighbour). -/
def roundHalfEven (q : ℚ) : ℤ :=
  if q - ⌊q⌋ < 1/2 then ⌊q⌋
  else if 1/2 < q - ⌊q⌋ then ⌊q⌋ + 1
  else if ⌊q⌋ % 2 = 0 then ⌊q⌋ else ⌊q⌋ + 1

/-- Embedding of Python `round(x, 2)` on the percentages computed by the
service. -/
def round2 (q : ℚ) : ℚ := (roundHalfEven (q * 100) : ℚ) / 100

/-- Embedding of Python `round(x, 1)` used for the day averages. -/
def round1 (q : ℚ) : ℚ := (roundHalfEven (q * 10) : ℚ) / 10

/-- Embedding of a Python `datetime.date`: the fields of a calendar date
together with the invariant the `date` constructor guarantees for every
value that can exist at runtime (the upper day bound and the year range,
which no computation here consults, are left out). -/
structure PyDate where
  year : Nat
  month : Nat
  day : Nat
  valid : 1 ≤ month ∧ month ≤ 12 ∧ 1 ≤ day

theorem PyDate.ext_fields {a b : PyDate} (hy : a.year = b.year)
    (hm : a.month = b.month) (hd : a.day = b.day) : a = b := by
  cases a; cases b; simp_all

/-- CPython compares `date` objects lexicographically on
(year, month, day); this is `d1 <= d2`. -/
def pyLeDate (a b : PyDate) : Bool :=
  (a.year < b.year) ||
  (a.year == b.year &&
    ((a.month < b.month) || (a.month == b.month && a.day ≤ b.day)))

/-- Strict `date` comparison `d1 < d2`. -/
def pyLtDate (a b : PyDate) : Bool :=
  (a.year < b.year) ||
  (a.year == b.year &&
    ((a.month < b.month) || (a.month == b.month && a.day < b.day)))

theorem pyLeDate_iff {a b : PyDate} : pyLeDate a b = true ↔
    (a.year < b.year ∨ (a.year = b.year ∧
      (a.month < b.month ∨ (a.month = b.month ∧ a.day ≤ b.day)))) := by
  simp [pyLeDate]

theorem pyLtDate_iff {a b : PyDate} : pyLtDate a b = true ↔
    (a.year < b.year ∨ (a.year = b.year ∧
      (a.month < b.month ∨ (a.month = b.month ∧ a.day < b.day)))) := by
  simp [pyLtDate]

theorem pyLeDate_trans {a b c : PyDate} (h1 : pyLeDate a b = true)
    (h2 : pyLeDate b c = true) : pyLeDate a c = true := by
  rw [pyLeDate_iff] at *; omega

theorem pyLeDate_total (a b : PyDate) :
    pyLeDate a b = true ∨ pyLeDate b a = true := by
  rw [pyLeDate_iff, pyLeDate_iff]; omega

theorem pyLeDate_refl (a : PyDate) : pyLeDate a a = true := by
  rw [pyLeDate_iff]; omega

theorem not_pyLtDate_iff {a b : PyDate} :
    (¬ pyLtDate a b = true) ↔ pyLeDate b a = true := by
  rw [pyLeDate_iff, pyLtDate_iff]; omega

/-- Days before January 1st of a given year in the proleptic Gregorian
calendar, as in CPython's `datetime._days_before_year`. -/
def daysBeforeYear (y : Nat) : Nat :=
  365 * (y - 1) + (y - 1) / 4 - (y - 1) / 100 + (y - 1) / 400

/-- Gregorian leap-year test, as in CPython's `datetime._is_leap`. -/
def isLeap (y : Nat) : Bool := y % 4 == 0 && (y % 100 != 0 || y % 400 == 0)

/-- Cumulative day counts before each month in a non-leap year, as in
CPython's `_DAYS_BEFORE_MONTH` table. -/
def daysBeforeMonthTable (m : Nat) : Nat :=
  match m with
  | 1 => 0 | 2 => 31 | 3 => 59 | 4 => 90 | 5 => 120 | 6 => 151
  | 7 => 181 | 8 => 212 | 9 => 243 | 10 => 273 | 11 => 304 | 12 => 334
  | _ => 0

/-- CPython's `datetime._days_before_month`. -/
def daysBeforeMonth (y m : Nat) : Nat :=
  daysBeforeMonthTable m + (if 2 < m && isLeap y then 1 else 0)

/-- CPython's `date.toordinal`: day number in the proleptic Gregorian
calendar, with 0001-01-01 having ordinal 1.  Subtraction of `date` values
(`(a - b).days`) is the difference of ordinals. -/
def PyDate.toOrdinal (d : PyDate) : Nat :=
  daysBeforeYear d.year + daysBeforeMonth d.year d.month + d.day

/-- Embedding of Python `(a - b).days` for dates. -/
def dateDiffDays (a b : PyDate) : ℤ := (a.toOrdinal : ℤ) - (b.toOrdinal : ℤ)

/-- Left zero-padding of a natural number to two digits, as `strftime`'s
`%m` does. -/
def pad2 (n : Nat) : String := if n < 10 then "0" ++ toString n else toString n

/-- Year field of `strftime` (`%Y`): for the years representable by a
Python `date` this is the decimal year, zero-padded to four digits. -/
def pad4 (n : Nat) : String :=
  if n < 10 then "000" ++ toString n
  else if n < 100 then "00" ++ toString n
  else if n < 1000 then "0" ++ toString n
  else toString n

/-- Embedding of `d.strftime("%Y-%m")`, the month-bucket key used by the
timeline statistics. -/
def monthKey (d : PyDate) : String := pad4 d.year ++ "-" ++ pad2 d.month

/-- Embedding of `strftime("%B")`: the English month name used by
`get_monthly_statistics`. -/
def monthName (m : Nat) : String :=
  match m with
  | 1 => "January" | 2 => "February" | 3 => "March" | 4 => "April"
  | 5 => "May" | 6 => "June" | 7 => "July" | 8 => "August"
  | 9 => "September" | 10 => "October" | 11 => "November" | 12 => "December"
  | _ => ""

/-- Embedding of `d.replace(day=1)`. -/
def PyDate.firstOfMonth (d : PyDate) : PyDate :=
  ⟨d.year, d.month, 1, ⟨d.valid.1, d.valid.2.1, Nat.le_refl 1⟩⟩

/-- Embedding of the move-to-next-month step of the bucketing loop:
`current.replace(year=current.year + 1, month=1)` when `current.month == 12`
and `current.replace(month=current.month + 1)` otherwise (the loop only
ever runs it on first-of-month dates). -/
def PyDate.nextMonthFirst (d : PyDate) : PyDate :=
  if h : d.month = 12 then
    ⟨d.year + 1, 1, 1, by omega⟩
  else
    ⟨d.year, d.month + 1, 1, by have := d.valid; omega⟩

/-- Serial index of a calendar month, used only to reason about the
bucketing loop. -/
def monthIdx (d : PyDate) : Nat := d.year * 12 + (d.month - 1)

/-- First day of the calendar month with a given serial index. -/
def monthOfIdx (i : Nat) : PyDate := ⟨i / 12, i % 12 + 1, 1, by omega⟩

/-- Embedding of a Python `datetime`: its calendar date plus a sub-day
component standing for the time of day (its unit is irrelevant: only its
lexicographic contribution to `datetime` comparison is ever used). -/
structure PyDateTime where
  date : PyDate
  subday : Nat

instance : BEq PyDate := ⟨fun a b => a.year == b.year && a.month == b.month && a.day == b.day⟩

/-- CPython `datetime` comparison `t1 < t2` (lexicographic: date, then
time of day). -/
def pyLtDT (a b : PyDateTime) : Bool :=
  pyLtDate a.date b.date || (a.date == b.date && decide (a.subday < b.subday))

theorem PyDate.beq_iff {a b : PyDate} : (a == b) = true ↔ a = b := by
  constructor
  · intro h
    have h' : (a.year == b.year && a.month == b.month && a.day == b.day) = true := h
    simp at h'
    exact PyDate.ext_fields h'.1.1 h'.1.2 h'.2
  · intro h
    subst h
    show (a.year == a.year && a.month == a.month && a.day == a.day) = true
    simp

instance : LawfulBEq PyDate where
  eq_of_beq h := PyDate.beq_iff.mp h
  rfl := PyDate.beq_iff.mpr rfl

/-- Embedding of `PositionStatus` (`app/models/position.py` and
`app/schemas/enums.py` declare the same six values in the same order). -/
inductive PositionStatus where
  | applied | screening | interviewing | offer | rejected | withdrawn
deriving DecidableEq, BEq

/-- Members of `PositionStatus` in declaration order, the order in which
Python iterates the enum. -/
def PositionStatus.all : List PositionStatus :=
  [applied, screening, interviewing, offer, rejected, withdrawn]

/-- Embedding of `InterviewType` (`app/models/interview.py`). -/
inductive InterviewType where
  | technical | behavioral | hr | final
deriving DecidableEq, BEq

/-- Members of `InterviewType` in declaration order. -/
def InterviewType.all : List InterviewType := [technical, behavioral, hr, final]

/-- Embedding of `InterviewPlace` (`app/models/interview.py`). -/
inductive InterviewPlace where
  | phone | video | onsite
deriving DecidableEq, BEq

/-- Embedding of `InterviewOutcome` (`app/models/interview.py`). -/
inductive InterviewOutcome where
  | pending | passed | failed | cancelled
deriving DecidableEq, BEq

/-- Members of `InterviewOutcome` in declaration order. -/
def InterviewOutcome.all : List InterviewOutcome :=
  [pending, passed, failed, cancelled]

/-- Embedding of the `Position` model, restricted to the columns the
statistics service reads (`title`, `location`, `salary_range`,
`description` and the user reference are never consulted by the
aggregation code; the user filter is embedded by passing the already
fetched per-user list, per the collaborator interface of spec §6). -/
structure Position where
  id : Nat
  company : String
  status : PositionStatus
  application_date : PyDate
  updated_at : PyDateTime

/-- Embedding of the `Interview` model, restricted to the columns the
statistics service reads (`duration_minutes` and `notes` are never
consulted). -/
structure Interview where
  position_id : Nat
  type : InterviewType
  place : InterviewPlace
  scheduled_date : PyDateTime
  outcome : InterviewOutcome

/-- Embedding of the SQLAlchemy relationship `position.interviews`: the
interviews whose `position_id` is the position's id. -/
def Position.interviews (p : Position) (ivs : List Interview) : List Interview :=
  ivs.filter (fun iv => iv.position_id == p.id)

/-- Embedding of `StatisticsService._calculate_response_rate`. -/
def calculate_response_rate (positions : List Position) : ℚ :=
  if positions.isEmpty then 0
  else
    let responses := positions.countP (fun p => p.status != PositionStatus.applied)
    round2 ((responses : ℚ) / (positions.length : ℚ) * 100)

/-- Embedding of `StatisticsService._calculate_interview_rate`; the Python
`set` of position ids referenced by the interviews is embedded as
deduplication of the id list. -/
def calculate_interview_rate (positions : List Position) (interviews : List Interview) : ℚ :=
  if positions.isEmpty then 0
  else
    let positions_with_interviews := (interviews.map (fun iv => iv.position_id)).dedup
    round2 ((positions_with_interviews.length : ℚ) / (positions.length : ℚ) * 100)

/-- Embedding of `StatisticsService._calculate_offer_rate`. -/
def calculate_offer_rate (positions : List Position) : ℚ :=
  if positions.isEmpty then 0
  else
    let offers := positions.countP (fun p => p.status == PositionStatus.offer)
    round2 ((offers : ℚ) / (positions.length : ℚ) * 100)

/-- Embedding of `StatisticsService._calculate_status_breakdown`: a
mapping built by iterating the schema enum, so its key list is the full
enumeration in declaration order, each key carrying the `Counter` count of
positions with that status. -/
def calculate_status_breakdown (positions : List Position) : List (PositionStatus × Nat) :=
  PositionStatus.all.map (fun s => (s, positions.countP (fun p => p.status == s)))

/-- Embedding of `StatisticsService._calculate_interview_type_breakdown`. -/
def calculate_interview_type_breakdown (interviews : List Interview) : List (InterviewType × Nat) :=
  InterviewType.all.map (fun t => (t, interviews.countP (fun iv => iv.type == t)))

/-- Embedding of `StatisticsService._calculate_interview_outcome_breakdown`. -/
def calculate_interview_outcome_breakdown (interviews : List Interview) : List (InterviewOutcome × Nat) :=
  InterviewOutcome.all.map (fun o => (o, interviews.countP (fun iv => iv.outcome == o)))

/-- Field names of the pydantic schema `StatisticsOverview`
(`app/schemas/statistics.py`, all declared required). -/
def statisticsOverviewRequiredFields : List String :=
  ["total_applications", "total_companies", "total_interviews",
   "response_rate", "interview_rate", "offer_rate",
   "status_breakdown", "interview_type_breakdown", "interview_outcome_breakdown"]

/-- Keyword names used at the `StatisticsOverview(...)` construction site
in `StatisticsService.get_overview_statistics` (lines 79-89 of
`statistics_service.py`). -/
def overviewConstructorKwargs : List String :=
  ["total_positions", "total_companies", "total_interviews",
   "response_rate", "interview_rate", "offer_rate",
   "positions_by_status", "interview_type_breakdown", "interview_outcome_breakdown"]

/-- Aggregate record of the `StatisticsOverview` schema. -/
structure StatisticsOverview where
  total_applications : Nat
  total_companies : Nat
  total_interviews : Nat
  response_rate : ℚ
  interview_rate : ℚ
  offer_rate : ℚ
  status_breakdown : List (PositionStatus × Nat)
  interview_type_breakdown : List (InterviewType × Nat)
  interview_outcome_breakdown : List (InterviewOutcome × Nat)

/-- Embedding of `StatisticsService.get_overview_statistics` on the
fetched position and interview lists.  Pydantic (v2) validation of the
constructor call is embedded by its observable rule for this schema:
construction succeeds iff every required field name is among the supplied
keyword names (extra keywords are ignored under the default model config);
otherwise it raises a `ValidationError`.  The success branch returns the
record under the intended field correspondence. -/
def get_overview_statistics (positions : List Position) (interviews : List Interview) :
    Except String StatisticsOverview :=
  let total_applications := positions.length
  let total_companies := (positions.map (fun p => p.company)).dedup.length
  let total_interviews := interviews.length
  let response_rate := calculate_response_rate positions
  let interview_rate := calculate_interview_rate positions interviews
  let offer_rate := calculate_offer_rate positions
  let status_breakdown := calculate_status_breakdown positions
  let interview_type_breakdown := calculate_interview_type_breakdown interviews
  let interview_outcome_breakdown := calculate_interview_outcome_breakdown interviews
  if statisticsOverviewRequiredFields.all (fun f => overviewConstructorKwargs.contains f) then
    Except.ok
      { total_applications := total_applications
        total_companies := total_companies
        total_interviews := total_interviews
        response_rate := response_rate
        interview_rate := interview_rate
        offer_rate := offer_rate
        status_breakdown := status_breakdown
        interview_type_breakdown := interview_type_breakdown
        interview_outcome_breakdown := interview_outcome_breakdown }
  else
    Except.error "pydantic ValidationError: StatisticsOverview missing required fields"

/-- Embedding of the `StatisticsFilters` schema. -/
structure StatisticsFilters where
  start_date : Option PyDate
  end_date : Option PyDate
  company : Option String
  status : Option PositionStatus

/-- Python `min(dates)` on a non-empty list, given as head and tail: fold
keeping the first minimum. -/
def pyMinDate (x : PyDate) (xs : List PyDate) : PyDate :=
  xs.foldl (fun best c => if pyLtDate c best then c else best) x

/-- Python `max(dates)` on a non-empty list, given as head and tail: fold
keeping the first maximum. -/
def pyMaxDate (x : PyDate) (xs : List PyDate) : PyDate :=
  xs.foldl (fun best c => if pyLtDate best c then c else best) x

/-- Embedding of the else-branch of the date-range determination of
`StatisticsService.get_timeline_statistics` (lines 119-129): the min/max
of the fetched application dates, or `[first-of-current-month, today]`
when there are none (`date.today()` is passed in as `today`). -/
def timelineFallbackPeriod (positions : List Position) (today : PyDate) : PyDate × PyDate :=
  match positions.map (fun p => p.application_date) with
  | [] => (today.firstOfMonth, today)
  | d :: ds => (pyMinDate d ds, pyMaxDate d ds)

/-- Embedding of the filter-supplied branch of the range determination:
`if filters and filters.start_date and filters.end_date` takes the two
filter dates verbatim, and every other case falls back to the derived
range. -/
def timelinePeriod (filters : Option StatisticsFilters) (positions : List Position)
    (today : PyDate) : PyDate × PyDate :=
  match filters with
  | some f =>
    match f.start_date, f.end_date with
    | some s, some e => (s, e)
    | _, _ => timelineFallbackPeriod positions today
  | none => timelineFallbackPeriod positions today

theorem monthIdx_le_of_pyLeDate {a b : PyDate} (h : pyLeDate a b = true) :
    monthIdx a ≤ monthIdx b := by
  rw [pyLeDate_iff] at h
  have va := a.valid
  have vb := b.valid
  unfold monthIdx
  omega

theorem monthIdx_nextMonthFirst (d : PyDate) :
    monthIdx d.nextMonthFirst = monthIdx d + 1 := by
  have v := d.valid
  unfold PyDate.nextMonthFirst monthIdx
  split <;> simp <;> omega

/-- Embedding of the month-generation `while` loop shared by
`_calculate_applications_per_month` and `_calculate_interviews_per_month`:
starting from a first-of-month date, emit each month's first day while it
is `<=` the end date, stepping to the next month's first day. -/
def monthsFrom (current e : PyDate) : List PyDate :=
  if h : pyLeDate current e then current :: monthsFrom current.nextMonthFirst e
  else []
termination_by monthIdx e + 1 - monthIdx current
decreasing_by
  have h1 := monthIdx_le_of_pyLeDate h
  rw [monthIdx_nextMonthFirst]
  omega

/-- One `{"month": ..., "count": ...}` entry of the per-month sequences. -/
structure MonthEntry where
  month : String
  count : Nat
deriving DecidableEq

/-- Embedding of `StatisticsService._calculate_applications_per_month`:
the `defaultdict(int)` of per-month-key counts is embedded as a function
from keys to counts built by the same fold, and the `while` loop as a map
over `monthsFrom`. -/
def calculate_applications_per_month (positions : List Position)
    (start_date end_date : PyDate) : List MonthEntry :=
  let monthly_counts : String → Nat := positions.foldl
    (fun counts p =>
      if pyLeDate start_date p.application_date && pyLeDate p.application_date end_date then
        fun k => if k == monthKey p.application_date then counts k + 1 else counts k
      else counts)
    (fun _ => 0)
  (monthsFrom start_date.firstOfMonth end_date).map
    (fun current => { month := monthKey current, count := monthly_counts (monthKey current) })

/-- Embedding of `StatisticsService._calculate_interviews_per_month`; an
interview's bucketing date is `scheduled_date.date()`. -/
def calculate_interviews_per_month (interviews : List Interview)
    (start_date end_date : PyDate) : List MonthEntry :=
  let monthly_counts : String → Nat := interviews.foldl
    (fun counts iv =>
      if pyLeDate start_date iv.scheduled_date.date && pyLeDate iv.scheduled_date.date end_date then
        fun k => if k == monthKey iv.scheduled_date.date then counts k + 1 else counts k
      else counts)
    (fun _ => 0)
  (monthsFrom start_date.firstOfMonth end_date).map
    (fun current => { month := monthKey current, count := monthly_counts (monthKey current) })

/-- Python `min(interviews, key=lambda x: x.scheduled_date)` on a
non-empty list given as head and tail: fold keeping the first minimum
under `datetime` comparison. -/
def pyMinInterview (x : Interview) (xs : List Interview) : Interview :=
  xs.foldl (fun best c => if pyLtDT c.scheduled_date best.scheduled_date then c else best) x

/-- The `response_times` list built by
`StatisticsService._calculate_average_response_time`.  The
`position_interviews` grouping dictionary is embedded through
`Position.interviews`; membership of `pos.id` in the dictionary is
non-emptiness of that list. -/
def response_times_list (positions : List Position)
    (interviews : List Interview) : List ℤ :=
  positions.foldr
    (fun pos acc =>
      match pos.interviews interviews with
      | [] =>
        -- either the position is skipped by the applied-with-no-interviews
        -- guard, or earliest_response stays None; both append nothing
        acc
      | iv :: ivs =>
        -- the guard `pos.id not in position_interviews` is false here
        let earliest_response := (pyMinInterview iv ivs).scheduled_date.date
        let days_diff := dateDiffDays earliest_response pos.application_date
        if 0 ≤ days_diff then days_diff :: acc else acc)
    []

/-- Embedding of `StatisticsService._calculate_average_response_time`. -/
def calculate_average_response_time (positions : List Position)
    (interviews : List Interview) : Option ℚ :=
  let response_times := response_times_list positions interviews
  if response_times.isEmpty then none
  else some (round1 ((response_times.sum : ℚ) / (response_times.length : ℚ)))

/-- Per-company record of the `CompanyStatistics` schema. -/
structure CompanyStatistics where
  company_name : String
  total_applications : Nat
  total_interviews : Nat
  latest_application_date : Option PyDate
  status_breakdown : List (PositionStatus × Nat)
  success_rate : ℚ

/-- Embedding of `StatisticsService._calculate_company_statistics`. -/
def calculate_company_statistics (company_name : String)
    (positions : List Position) (interviews : List Interview) : CompanyStatistics :=
  let total_applications := positions.length
  let total_interviews := interviews.length
  let latest_application_date :=
    match positions.map (fun p => p.application_date) with
    | [] => none
    | d :: ds => some (pyMaxDate d ds)
  let status_breakdown := calculate_status_breakdown positions
  let offers := positions.countP (fun p => p.status == PositionStatus.offer)
  let success_rate :=
    if 0 < total_applications then round2 ((offers : ℚ) / (total_applications : ℚ) * 100)
    else 0
  { company_name := company_name
    total_applications := total_applications
    total_interviews := total_interviews
    latest_application_date := latest_application_date
    status_breakdown := status_breakdown
    success_rate := success_rate }

/-- Company keys of a `defaultdict` grouping built by appending in
iteration order: the distinct companies in first-encounter order. -/
def companiesInOrder (positions : List Position) : List String :=
  positions.foldl (fun acc p => if acc.contains p.company then acc else acc ++ [p.company]) []

/-- Response record of `get_company_statistics`. -/
structure CompanyStatisticsResponse where
  companies : List CompanyStatistics
  total_companies : Nat

/-- Embedding of `StatisticsService.get_company_statistics` on the fetched
lists: group positions by exact `company` string (first-encounter key
order), compute each company's record over its own positions and their
interviews, then stable-sort by `total_applications` descending
(`list.sort(key=..., reverse=True)` keeps ties in encounter order, as
`List.mergeSort` does). -/
def get_company_statistics (positions : List Position) (interviews : List Interview) :
    CompanyStatisticsResponse :=
  let company_stats := (companiesInOrder positions).map
    (fun c =>
      let company_pos := positions.filter (fun p => p.company == c)
      let company_interviews := company_pos.foldr
        (fun p acc => p.interviews interviews ++ acc) []
      calculate_company_statistics c company_pos company_interviews)
  let sorted := company_stats.mergeSort
    (fun a b => decide (b.total_applications ≤ a.total_applications))
  { companies := sorted, total_companies := sorted.length }

/-- Per-company record produced by `get_top_companies`. -/
structure TopCompany where
  company : String
  applications : Nat
  interviews : Nat
  offers : Nat
  success_rate : ℚ
deriving DecidableEq

/-- Python list slicing `l[:limit]` for an arbitrary (possibly negative)
`int` limit. -/
def pySliceTo {α : Type} (l : List α) (limit : ℤ) : List α :=
  if 0 ≤ limit then l.take limit.toNat
  else l.take (l.length - (-limit).toNat)

/-- Embedding of `StatisticsService.get_top_companies`: group the user's
positions by company (interviews counted through the
`position.interviews` relationship), compute each company's success rate,
stable-sort by the key tuple `(success_rate, applications)` descending,
and slice to `limit` (a Python `int`, default 10). -/
def get_top_companies (positions : List Position) (interviews : List Interview)
    (limit : ℤ) : List TopCompany :=
  if positions.isEmpty then []
  else
    let top_companies := (companiesInOrder positions).map
      (fun c =>
        let company_pos := positions.filter (fun p => p.company == c)
        let applications := company_pos.length
        let ivs := company_pos.foldr (fun p acc => (p.interviews interviews).length + acc) 0
        let offers := company_pos.countP (fun p => p.status == PositionStatus.offer)
        let success_rate :=
          if 0 < applications then round2 ((offers : ℚ) / (applications : ℚ) * 100)
          else 0
        { company := c, applications := applications, interviews := ivs,
          offers := offers, success_rate := success_rate : TopCompany })
    let sorted := top_companies.mergeSort
      (fun a b => decide (b.success_rate < a.success_rate) ||
        (decide (b.success_rate = a.success_rate) &&
          decide (b.applications ≤ a.applications)))
    pySliceTo sorted limit

/-- Embedding of `get_top_companies` with its default `limit=10`. -/
def get_top_companies_default (positions : List Position)
    (interviews : List Interview) : List TopCompany :=
  get_top_companies positions interviews 10

/-- One month's record of `get_monthly_statistics`. -/
structure MonthlyStat where
  month : String
  positions_applied : Nat
  interviews_conducted : Nat
  offers_received : Nat
deriving DecidableEq

/-- The zero-seeded `monthly_stats` dictionary (months 1..12 in key
order), embedded as a function from the month number. -/
def monthlyInit (year : Nat) : Nat → MonthlyStat :=
  fun m => { month := monthName m, positions_applied := 0,
             interviews_conducted := 0, offers_received := 0 }

/-- First update of the `monthly_stats` dictionary per position in
`get_monthly_statistics`: bump `positions_applied` for the position's
application month. -/
def monthlyApplyApplied (stats : Nat → MonthlyStat) (position : Position) :
    Nat → MonthlyStat :=
  fun m =>
    if m = position.application_date.month then
      { stats m with positions_applied := (stats m).positions_applied + 1 }
    else stats m

/-- Second update: bump `interviews_conducted` for every interview of the
position whose `scheduled_date` year is the requested year, in the
interview's own month (a `datetime` is always truthy, so the
`interview.scheduled_date and` guard always passes). -/
def monthlyApplyInterviews (year : Nat) (interviews : List Interview)
    (stats : Nat → MonthlyStat) (position : Position) : Nat → MonthlyStat :=
  fun m =>
    let c := (position.interviews interviews).countP
      (fun iv => iv.scheduled_date.date.year == year &&
        iv.scheduled_date.date.month == m)
    { stats m with interviews_conducted := (stats m).interviews_conducted + c }

/-- Third update: bump `offers_received` in `updated_at`'s month when the
position is an offer whose `updated_at` year is the requested year
(`position.updated_at` is non-nullable, so its truthiness test always
passes). -/
def monthlyApplyOffer (year : Nat) (stats : Nat → MonthlyStat)
    (position : Position) : Nat → MonthlyStat :=
  fun m =>
    if position.status == PositionStatus.offer &&
        position.updated_at.date.year == year &&
        position.updated_at.date.month == m then
      { stats m with offers_received := (stats m).offers_received + 1 }
    else stats m

/-- The complete per-position update of the `monthly_stats` dictionary in
`get_monthly_statistics`. -/
def monthlyApply (year : Nat) (interviews : List Interview)
    (stats : Nat → MonthlyStat) (position : Position) : Nat → MonthlyStat :=
  monthlyApplyOffer year
    (monthlyApplyInterviews year interviews (monthlyApplyApplied stats position) position)
    position

/-- Embedding of `StatisticsService.get_monthly_statistics`: the database
query keeps the user's positions whose `application_date` year is the
requested year; the dictionary seeded with months 1..12 is updated per
position and read out in key order. -/
def get_monthly_statistics (positions : List Position) (interviews : List Interview)
    (year : Nat) : List MonthlyStat :=
  let filtered := positions.filter (fun p => p.application_date.year == year)
  let final := filtered.foldl (monthlyApply year interviews) (monthlyInit year)
  (List.range 12).map (fun i => final (i + 1))

/-! Helper lemmas shared by the claim theorems. -/

theorem sum_map_ite_one {β : Type} (elems : List β) (q : β → Bool) :
    (elems.map (fun s => if q s then 1 else 0)).sum = elems.countP q := by
  induction elems with
  | nil => simp
  | cons b t ih =>
    simp only [List.map_cons, List.sum_cons, List.countP_cons, ih]
    cases h : q b <;> simp [h] <;> omega

theorem sum_map_add_nat {β : Type} (elems : List β) (f g : β → Nat) :
    (elems.map (fun s => f s + g s)).sum = (elems.map f).sum + (elems.map g).sum := by
  induction elems with
  | nil => simp
  | cons b t ih => simp [ih]; omega

theorem sum_map_countP {α β : Type} [BEq β] (elems : List β) (f : α → β) (l : List α)
    (h : ∀ a : α, elems.countP (fun s => f a == s) = 1) :
    (elems.map (fun s => l.countP (fun x => f x == s))).sum = l.length := by
  induction l with
  | nil => simp
  | cons p t ih =>
    have : (elems.map (fun s => (p :: t).countP (fun x => f x == s))) =
        elems.map (fun s => t.countP (fun x => f x == s) + (if f p == s then 1 else 0)) := by
      apply List.map_congr_left
      intro s _
      rw [List.countP_cons]
    rw [this, sum_map_add_nat, ih, sum_map_ite_one, h p, List.length_cons]

theorem pyMinDate_spec (x : PyDate) (xs : List PyDate) :
    pyMinDate x xs ∈ x :: xs ∧ ∀ d ∈ x :: xs, pyLeDate (pyMinDate x xs) d = true := by
  induction xs generalizing x with
  | nil =>
    refine ⟨List.mem_singleton.mpr rfl, ?_⟩
    intro d hd
    rw [List.mem_singleton.mp hd]
    show pyLeDate x x = true
    exact pyLeDate_refl x
  | cons y ys ih =>
    have hstep : pyMinDate x (y :: ys) = pyMinDate (if pyLtDate y x then y else x) ys := rfl
    by_cases h : pyLtDate y x = true
    · rw [hstep, if_pos h]
      obtain ⟨hm, hle⟩ := ih y
      refine ⟨?_, ?_⟩
      · rcases List.mem_cons.mp hm with h1 | h1
        · rw [h1]; exact List.mem_cons_of_mem _ (List.mem_cons_self _ _)
        · exact List.mem_cons_of_mem _ (List.mem_cons_of_mem _ h1)
      · intro d hd
        rcases List.mem_cons.mp hd with rfl | hd'
        · have hyx : pyLeDate y d = true := by
            rw [pyLeDate_iff]; rw [pyLtDate_iff] at h; omega
          exact pyLeDate_trans (hle y (List.mem_cons_self _ _)) hyx
        · rcases List.mem_cons.mp hd' with rfl | hd''
          · exact hle d (List.mem_cons_self _ _)
          · exact hle d (List.mem_cons_of_mem _ hd'')
    · rw [hstep, if_neg h]
      obtain ⟨hm, hle⟩ := ih x
      refine ⟨?_, ?_⟩
      · rcases List.mem_cons.mp hm with h1 | h1
        · rw [h1]; exact List.mem_cons_self _ _
        · exact List.mem_cons_of_mem _ (List.mem_cons_of_mem _ h1)
      · intro d hd
        rcases List.mem_cons.mp hd with rfl | hd'
        · exact hle d (List.mem_cons_self _ _)
        · rcases List.mem_cons.mp hd' with rfl | hd''
          · have hxy : pyLeDate x d = true := by
              rw [pyLeDate_iff]
              have h2 : ¬ (pyLtDate d x = true) := h
              rw [pyLtDate_iff] at h2
              omega
            exact pyLeDate_trans (hle x (List.mem_cons_self _ _)) hxy
          · exact hle d (List.mem_cons_of_mem _ hd'')

theorem pyMaxDate_spec (x : PyDate) (xs : List PyDate) :
    pyMaxDate x xs ∈ x :: xs ∧ ∀ d ∈ x :: xs, pyLeDate d (pyMaxDate x xs) = true := by
  induction xs generalizing x with
  | nil =>
    refine ⟨List.mem_singleton.mpr rfl, ?_⟩
    intro d hd
    rw [List.mem_singleton.mp hd]
    show pyLeDate x x = true
    exact pyLeDate_refl x
  | cons y ys ih =>
    have hstep : pyMaxDate x (y :: ys) = pyMaxDate (if pyLtDate x y then y else x) ys := rfl
    by_cases h : pyLtDate x y = true
    · rw [hstep, if_pos h]
      obtain ⟨hm, hle⟩ := ih y
      refine ⟨?_, ?_⟩
      · rcases List.mem_cons.mp hm with h1 | h1
        · rw [h1]; exact List.mem_cons_of_mem _ (List.mem_cons_self _ _)
        · exact List.mem_cons_of_mem _ (List.mem_cons_of_mem _ h1)
      · intro d hd
        rcases List.mem_cons.mp hd with rfl | hd'
        · have hxy : pyLeDate d y = true := by
            rw [pyLeDate_iff]; rw [pyLtDate_iff] at h; omega
          exact pyLeDate_trans hxy (hle y (List.mem_cons_self _ _))
        · rcases List.mem_cons.mp hd' with rfl | hd''
          · exact hle d (List.mem_cons_self _ _)
          · exact hle d (List.mem_cons_of_mem _ hd'')
    · rw [hstep, if_neg h]
      obtain ⟨hm, hle⟩ := ih x
      refine ⟨?_, ?_⟩
      · rcases List.mem_cons.mp hm with h1 | h1
        · rw [h1]; exact List.mem_cons_self _ _
        · exact List.mem_cons_of_mem _ (List.mem_cons_of_mem _ h1)
      · intro d hd
        rcases List.mem_cons.mp hd with rfl | hd'
        · exact hle d (List.mem_cons_self _ _)
        · rcases List.mem_cons.mp hd' with rfl | hd''
          · have hdx : pyLeDate d x = true := by
              rw [pyLeDate_iff]
              have h2 : ¬ (pyLtDate x d = true) := h
              rw [pyLtDate_iff] at h2
              omega
            exact pyLeDate_trans hdx (hle x (List.mem_cons_self _ _))
          · exact hle d (List.mem_cons_of_mem _ hd'')

theorem mem_companiesInOrder_aux (ps : List Position) (acc : List String) (c : String) :
    c ∈ ps.foldl (fun acc p => if acc.contains p.company then acc else acc ++ [p.company]) acc ↔
      c ∈ acc ∨ ∃ p ∈ ps, p.company = c := by
  induction ps generalizing acc with
  | nil => simp
  | cons p t ih =>
    simp only [List.foldl_cons]
    by_cases h : acc.contains p.company = true
    · rw [if_pos h, ih]
      constructor
      · rintro (hc | hc)
        · exact Or.inl hc
        · exact Or.inr (by simpa using Or.inr hc)
      · rintro (hc | hc)
        · exact Or.inl hc
        · rcases (by simpa using hc : p.company = c ∨ ∃ q ∈ t, q.company = c) with rfl | hc
          · exact Or.inl (by simpa [List.contains] using h)
          · exact Or.inr hc
    · rw [if_neg h, ih]
      constructor
      · rintro (hc | hc)
        · rcases List.mem_append.mp hc with hc | hc
          · exact Or.inl hc
          · exact Or.inr (by simpa using Or.inl (List.mem_singleton.mp hc).symm)
        · exact Or.inr (by simpa using Or.inr hc)
      · rintro (hc | hc)
        · exact Or.inl (List.mem_append.mpr (Or.inl hc))
        · rcases (by simpa using hc : p.company = c ∨ ∃ q ∈ t, q.company = c) with rfl | hc
          · exact Or.inl (List.mem_append.mpr (Or.inr (List.mem_singleton.mpr rfl)))
          · exact Or.inr hc

theorem mem_companiesInOrder {ps : List Position} {c : String} :
    c ∈ companiesInOrder ps ↔ ∃ p ∈ ps, p.company = c := by
  rw [companiesInOrder, mem_companiesInOrder_aux]
  simp

/-! Claim theorems. -/

/-- C1: the spec says the overview builder returns the aggregate record and
never fails except on upstream data-access failure; the code calls the
`StatisticsOverview` constructor with keyword names `total_positions` and
`positions_by_status`, which the schema does not declare, so the required
fields `total_applications` and `status_breakdown` are missing and pydantic
validation rejects every call: for all successfully fetched position and
interview lists the overview builder raises. -/
theorem overview_construction_always_fails (positions : List Position)
    (interviews : List Interview) :
    get_overview_statistics positions interviews =
      Except.error "pydantic ValidationError: StatisticsOverview missing required fields" := by
  rfl

/-- C2: on the empty position list (and hence the empty interview list) the
overview computation yields zero totals, rate 0.0 for all three rates with
no division error (the calculators are total functions), and breakdown
mappings whose key lists are the full enumeration domains (6 position
statuses, 4 interview types, 4 interview outcomes) with every count 0. -/
theorem overview_empty_all_zero :
    ([] : List Position).length = 0 ∧
    calculate_response_rate [] = 0 ∧
    calculate_interview_rate [] [] = 0 ∧
    calculate_offer_rate [] = 0 ∧
    calculate_status_breakdown [] =
      [(PositionStatus.applied, 0), (PositionStatus.screening, 0),
       (PositionStatus.interviewing, 0), (PositionStatus.offer, 0),
       (PositionStatus.rejected, 0), (PositionStatus.withdrawn, 0)] ∧
    calculate_interview_type_breakdown [] =
      [(InterviewType.technical, 0), (InterviewType.behavioral, 0),
       (InterviewType.hr, 0), (InterviewType.final, 0)] ∧
    calculate_interview_outcome_breakdown [] =
      [(InterviewOutcome.pending, 0), (InterviewOutcome.passed, 0),
       (InterviewOutcome.failed, 0), (InterviewOutcome.cancelled, 0)] :=
  ⟨rfl, rfl, rfl, rfl, rfl, rfl, rfl⟩

/-- C10: for every position list the status-breakdown counts sum to the
number of positions, and for every interview list the interview-type and
interview-outcome breakdown counts each sum to the number of interviews
(every status, type and outcome is one of the enumerated values by
construction of the embedded model). -/
theorem breakdown_counts_sum_to_length (positions : List Position)
    (interviews : List Interview) :
    ((calculate_status_breakdown positions).map Prod.snd).sum = positions.length ∧
    ((calculate_interview_type_breakdown interviews).map Prod.snd).sum = interviews.length ∧
    ((calculate_interview_outcome_breakdown interviews).map Prod.snd).sum = interviews.length := by
  refine ⟨?_, ?_, ?_⟩
  · unfold calculate_status_breakdown
    rw [List.map_map]
    exact sum_map_countP PositionStatus.all (fun p => p.status) positions
      (fun a => by
        show PositionStatus.all.countP (fun s => a.status == s) = 1
        cases a.status <;> rfl)
  · unfold calculate_interview_type_breakdown
    rw [List.map_map]
    exact sum_map_countP InterviewType.all (fun iv => iv.type) interviews
      (fun a => by
        show InterviewType.all.countP (fun s => a.type == s) = 1
        cases a.type <;> rfl)
  · unfold calculate_interview_outcome_breakdown
    rw [List.map_map]
    exact sum_map_countP InterviewOutcome.all (fun iv => iv.outcome) interviews
      (fun a => by
        show InterviewOutcome.all.countP (fun s => a.outcome == s) = 1
        cases a.outcome <;> rfl)


/-- Concrete calendar date 2024-01-10 used by the closed parts of the
claim theorems. -/
def sampleDate : PyDate := ⟨2024, 1, 10, by omega⟩

/-- Concrete calendar date 2024-03-05. -/
def sampleDate2 : PyDate := ⟨2024, 3, 5, by omega⟩

/-- Concrete timestamp on `sampleDate`. -/
def sampleDT : PyDateTime := ⟨sampleDate, 0⟩

/-- Concrete position fixture. -/
def samplePos (i : Nat) (c : String) (st : PositionStatus) : Position :=
  ⟨i, c, st, sampleDate, sampleDT⟩

theorem get_company_statistics_companies (positions : List Position)
    (interviews : List Interview) :
    (get_company_statistics positions interviews).companies =
      ((companiesInOrder positions).map
        (fun c => calculate_company_statistics c
          (positions.filter (fun p => p.company == c))
          ((positions.filter (fun p => p.company == c)).foldr
            (fun p acc => p.interviews interviews ++ acc) []))).mergeSort
        (fun a b => decide (b.total_applications ≤ a.total_applications)) := rfl

/-- C6: `get_company_statistics` groups positions by exact company string
(in particular "Acme" and "acme" are two distinct companies), returns the
per-company records sorted so that application counts are descending, and
each returned company's success rate is `round(offers/applications*100, 2)`
computed over only that company's positions. -/
theorem company_statistics_grouped_and_sorted (positions : List Position)
    (interviews : List Interview) :
    List.Pairwise (fun a b => b.total_applications ≤ a.total_applications)
      (get_company_statistics positions interviews).companies ∧
    ((get_company_statistics positions interviews).companies.map
      (fun c => c.company_name)).Perm (companiesInOrder positions) ∧
    (∀ c ∈ (get_company_statistics positions interviews).companies,
      c.total_applications =
        (positions.filter (fun p => p.company == c.company_name)).length ∧
      0 < (positions.filter (fun p => p.company == c.company_name)).length ∧
      c.success_rate = round2
        ((((positions.filter (fun p => p.company == c.company_name)).countP
            (fun p => p.status == PositionStatus.offer)) : ℚ) /
          ((positions.filter (fun p => p.company == c.company_name)).length : ℚ) * 100)) ∧
    (get_company_statistics
      [samplePos 1 "Acme" PositionStatus.applied,
       samplePos 2 "acme" PositionStatus.applied] []).total_companies = 2 := by
  refine ⟨?_, ?_, ?_, ?_⟩
  · rw [get_company_statistics_companies]
    refine List.Pairwise.imp ?_ (List.sorted_mergeSort ?_ ?_ _)
    · intro a b hab
      exact of_decide_eq_true hab
    · intro a b c hab hbc
      simp only [decide_eq_true_eq] at *
      omega
    · intro a b
      simp only [Bool.or_eq_true, decide_eq_true_eq]
      omega
  · rw [get_company_statistics_companies]
    refine ((List.mergeSort_perm _ _).map
      (fun c : CompanyStatistics => c.company_name)).trans ?_
    rw [List.map_map]
    have : ((fun c : CompanyStatistics => c.company_name) ∘
        (fun c => calculate_company_statistics c
          (positions.filter (fun p => p.company == c))
          ((positions.filter (fun p => p.company == c)).foldr
            (fun p acc => p.interviews interviews ++ acc) []))) = fun c => c := rfl
    rw [this]
    have hid : List.map (fun c : String => c) (companiesInOrder positions) =
        companiesInOrder positions := List.map_id _
    rw [hid]
  · intro c hc
    rw [get_company_statistics_companies, List.mem_mergeSort] at hc
    obtain ⟨name, hname, rfl⟩ := List.mem_map.mp hc
    obtain ⟨p, hp, hpc⟩ := mem_companiesInOrder.mp hname
    have hcn : (calculate_company_statistics name
        (positions.filter (fun q => q.company == name))
        ((positions.filter (fun q => q.company == name)).foldr
          (fun q acc => q.interviews interviews ++ acc) [])).company_name = name := rfl
    rw [hcn]
    have hpos : 0 < (positions.filter (fun q => q.company == name)).length := by
      refine List.length_pos.mpr (List.ne_nil_of_mem (List.mem_filter.mpr (⟨hp, ?_⟩ :
        p ∈ positions ∧ _)))
      show (p.company == name) = true
      simp [hpc]
    refine ⟨rfl, hpos, ?_⟩
    show (if 0 < (positions.filter (fun q => q.company == name)).length then
        round2 ((((positions.filter (fun q => q.company == name)).countP
          (fun q => q.status == PositionStatus.offer)) : ℚ) /
          ((positions.filter (fun q => q.company == name)).length : ℚ) * 100)
      else 0) = _
    rw [if_pos hpos]
  · show ((get_company_statistics
      [samplePos 1 "Acme" PositionStatus.applied,
       samplePos 2 "acme" PositionStatus.applied] []).companies).length = 2
    rw [get_company_statistics_companies, List.length_mergeSort, List.length_map]
    rfl

theorem timelineFallbackPeriod_spec (positions : List Position) (today : PyDate) :
    (positions = [] →
      timelineFallbackPeriod positions today = (today.firstOfMonth, today)) ∧
    (positions ≠ [] →
      (timelineFallbackPeriod positions today).1 ∈
        positions.map (fun p => p.application_date) ∧
      (∀ d ∈ positions.map (fun p => p.application_date),
        pyLeDate (timelineFallbackPeriod positions today).1 d = true) ∧
      (timelineFallbackPeriod positions today).2 ∈
        positions.map (fun p => p.application_date) ∧
      (∀ d ∈ positions.map (fun p => p.application_date),
        pyLeDate d (timelineFallbackPeriod positions today).2 = true)) := by
  constructor
  · rintro rfl
    rfl
  · intro hne
    cases hm : positions.map (fun p => p.application_date) with
    | nil => exact absurd (List.map_eq_nil_iff.mp hm) hne
    | cons d ds =>
      have hfb : timelineFallbackPeriod positions today = (pyMinDate d ds, pyMaxDate d ds) := by
        unfold timelineFallbackPeriod
        rw [hm]
      rw [hfb]
      obtain ⟨hminm, hminle⟩ := pyMinDate_spec d ds
      obtain ⟨hmaxm, hmaxle⟩ := pyMaxDate_spec d ds
      exact ⟨hminm, hminle, hmaxm, hmaxle⟩

/-- C7: the timeline reporting period is the filter's `start_date` and
`end_date` verbatim when both are supplied; otherwise the minimum and
maximum `application_date` across the fetched positions (characterized as
a member of the date list that bounds it from below resp. above); and for
zero positions, `[first day of the current month, today]`. -/
theorem timeline_period_spec (filters : Option StatisticsFilters)
    (positions : List Position) (today : PyDate) :
    (∀ ff s e, filters = some ff → ff.start_date = some s → ff.end_date = some e →
      timelinePeriod filters positions today = (s, e)) ∧
    ((filters = none ∨ ∃ ff, filters = some ff ∧
        (ff.start_date = none ∨ ff.end_date = none)) →
      (positions = [] →
        timelinePeriod filters positions today = (today.firstOfMonth, today)) ∧
      (positions ≠ [] →
        (timelinePeriod filters positions today).1 ∈
          positions.map (fun p => p.application_date) ∧
        (∀ d ∈ positions.map (fun p => p.application_date),
          pyLeDate (timelinePeriod filters positions today).1 d = true) ∧
        (timelinePeriod filters positions today).2 ∈
          positions.map (fun p => p.application_date) ∧
        (∀ d ∈ positions.map (fun p => p.application_date),
          pyLeDate d (timelinePeriod filters positions today).2 = true))) := by
  constructor
  · rintro ff s e rfl hs he
    obtain ⟨sd, ed, co, st⟩ := ff
    cases hs
    cases he
    rfl
  · intro hcase
    have hred : timelinePeriod filters positions today =
        timelineFallbackPeriod positions today := by
      rcases hcase with rfl | ⟨ff, rfl, hff⟩
      · rfl
      · obtain ⟨sd, ed, co, st⟩ := ff
        rcases hff with hs | he
        · cases hs
          cases ed <;> rfl
        · cases he
          cases sd <;> rfl
    rw [hred]
    exact timelineFallbackPeriod_spec positions today

/-- C7 witness: the three cases of `timeline_period_spec` instantiated at
concrete inputs. -/
theorem timeline_period_spec_witness :
    timelinePeriod (some ⟨some sampleDate, some sampleDate2, none, none⟩) [] sampleDate2 =
      (sampleDate, sampleDate2) ∧
    timelinePeriod none [] sampleDate2 = (sampleDate2.firstOfMonth, sampleDate2) ∧
    (timelinePeriod none [samplePos 1 "A" PositionStatus.applied] sampleDate2).1 ∈
      [samplePos 1 "A" PositionStatus.applied].map (fun p => p.application_date) :=
  ⟨(timeline_period_spec _ _ _).1 _ sampleDate sampleDate2 rfl rfl rfl,
   ((timeline_period_spec _ _ _).2 (Or.inl rfl)).1 rfl,
   ((((timeline_period_spec none [samplePos 1 "A" PositionStatus.applied] sampleDate2).2
      (Or.inl rfl)).2 (by simp)).1)⟩

/-- C9 (amended): for every nonnegative limit, `get_top_companies` returns
the per-company records sorted by success rate descending with ties broken
by application count descending, at most `limit` of them, and the default
limit is 10.  (For a negative Python `int` limit the slice `[:limit]`
drops elements from the end instead, see the counterexample.) -/
theorem top_companies_sorted_and_truncated (positions : List Position)
    (interviews : List Interview) (limit : ℤ) (hlim : 0 ≤ limit) :
    List.Pairwise (fun a b : TopCompany =>
      b.success_rate < a.success_rate ∨
        (b.success_rate = a.success_rate ∧ b.applications ≤ a.applications))
      (get_top_companies positions interviews limit) ∧
    ((get_top_companies positions interviews limit).length : ℤ) ≤ limit ∧
    get_top_companies_default positions interviews =
      get_top_companies positions interviews 10 := by
  refine ⟨?_, ?_, rfl⟩ <;> unfold get_top_companies <;> cases he : positions.isEmpty
  · rw [if_neg (by simp [he])]
    unfold pySliceTo
    rw [if_pos hlim]
    refine List.Pairwise.sublist (List.take_sublist _ _) ?_
    refine List.Pairwise.imp ?_ (List.sorted_mergeSort ?_ ?_ _)
    · intro a b hab
      simpa using hab
    · intro a b c hab hbc
      simp only [Bool.or_eq_true, Bool.and_eq_true, decide_eq_true_eq] at *
      rcases hab with h1 | ⟨h1e, h1a⟩ <;> rcases hbc with h2 | ⟨h2e, h2a⟩
      · exact Or.inl (lt_trans h2 h1)
      · exact Or.inl (by rw [h2e]; exact h1)
      · exact Or.inl (by rw [← h1e]; exact h2)
      · exact Or.inr ⟨h2e.trans h1e, le_trans h2a h1a⟩
    · intro a b
      simp only [Bool.or_eq_true, Bool.and_eq_true, decide_eq_true_eq]
      rcases lt_trichotomy b.success_rate a.success_rate with h | h | h
      · exact Or.inl (Or.inl h)
      · rcases Nat.le_total b.applications a.applications with ha | ha
        · exact Or.inl (Or.inr ⟨h, ha⟩)
        · exact Or.inr (Or.inr ⟨h.symm, ha⟩)
      · exact Or.inr (Or.inl h)
  · rw [if_pos (by simp [he])]
    exact List.Pairwise.nil
  · rw [if_neg (by simp [he])]
    unfold pySliceTo
    rw [if_pos hlim, List.length_take]
    omega
  · rw [if_pos (by simp [he])]
    simpa using hlim

/-- C9 witness: the amended theorem applied at a concrete input with
nonnegative limit 3. -/
theorem top_companies_sorted_witness :
    (0 : ℤ) ≤ 3 ∧
    ((get_top_companies [samplePos 1 "A" PositionStatus.applied] [] 3).length : ℤ) ≤ 3 :=
  ⟨by decide,
   (top_companies_sorted_and_truncated [samplePos 1 "A" PositionStatus.applied] [] 3
     (by decide)).2.1⟩

/-- C9 counterexample: with Python `int` limit -1 and two companies the
slice `top_companies[:limit]` keeps one record, which is not "at most
`limit` entries"; the claim as stated fails for negative limits. -/
theorem top_companies_negative_limit_cex :
    ¬ (((get_top_companies
        [samplePos 1 "A" PositionStatus.applied,
         samplePos 2 "B" PositionStatus.applied] [] (-1)).length : ℤ) ≤ -1) := by
  have hlen : (get_top_companies
      [samplePos 1 "A" PositionStatus.applied,
       samplePos 2 "B" PositionStatus.applied] [] (-1)).length = 1 := by
    unfold get_top_companies
    rw [if_neg (by simp)]
    unfold pySliceTo
    rw [if_neg (by decide), List.length_take, List.length_mergeSort, List.length_map]
    rfl
  rw [hlen]
  decide

theorem roundHalfEven_intCast (z : ℤ) : roundHalfEven (z : ℚ) = z := by
  unfold roundHalfEven
  rw [Int.floor_intCast, sub_self]
  rw [if_pos (by norm_num : (0 : ℚ) < 1/2)]

theorem round1_intCast (z : ℤ) : round1 (z : ℚ) = z := by
  unfold round1
  rw [show ((z : ℚ) * 10) = ((z * 10 : ℤ) : ℚ) by push_cast; ring, roundHalfEven_intCast]
  push_cast
  ring

theorem pyMinInterview_date (x : Interview) (xs : List Interview) :
    (pyMinInterview x xs).scheduled_date.date =
      pyMinDate x.scheduled_date.date (xs.map (fun iv => iv.scheduled_date.date)) := by
  induction xs generalizing x with
  | nil => rfl
  | cons y ys ih =>
    have hstep : pyMinInterview x (y :: ys) =
        pyMinInterview (if pyLtDT y.scheduled_date x.scheduled_date then y else x) ys := rfl
    have hstep2 : pyMinDate x.scheduled_date.date
          ((y :: ys).map (fun iv => iv.scheduled_date.date)) =
        pyMinDate
          (if pyLtDate y.scheduled_date.date x.scheduled_date.date then
            y.scheduled_date.date else x.scheduled_date.date)
          (ys.map (fun iv => iv.scheduled_date.date)) := rfl
    rw [hstep, hstep2, ih]
    congr 1
    by_cases hd : pyLtDate y.scheduled_date.date x.scheduled_date.date = true
    · rw [if_pos hd]
      have hdt : pyLtDT y.scheduled_date x.scheduled_date = true := by
        unfold pyLtDT
        rw [hd]
        simp
      rw [if_pos hdt]
    · rw [if_neg hd]
      by_cases hdt : pyLtDT y.scheduled_date x.scheduled_date = true
      · rw [if_pos hdt]
        unfold pyLtDT at hdt
        simp only [Bool.or_eq_true, Bool.and_eq_true, beq_iff_eq, decide_eq_true_eq] at hdt
        rcases hdt with h | h
        · exact absurd h hd
        · exact h.1
      · rw [if_neg hdt]

/-- Statement-side reading of the average-response-time rule from the
spec's words: for every position not still in the unmodified "applied"
state or with at least one interview, take the earliest interview
`scheduled_date` calendar date (if any) and record the day difference
from `application_date` only when it is non-negative. -/
def specResponseDiffs (positions : List Position) (interviews : List Interview) : List ℤ :=
  positions.foldr
    (fun pos acc =>
      if pos.status == PositionStatus.applied && (pos.interviews interviews).isEmpty then
        acc
      else
        match (pos.interviews interviews).map (fun iv => iv.scheduled_date.date) with
        | [] => acc
        | d :: ds =>
          if 0 ≤ dateDiffDays (pyMinDate d ds) pos.application_date then
            dateDiffDays (pyMinDate d ds) pos.application_date :: acc
          else acc)
    []

theorem response_times_eq (positions : List Position) (interviews : List Interview) :
    response_times_list positions interviews = specResponseDiffs positions interviews := by
  unfold response_times_list specResponseDiffs
  induction positions with
  | nil => rfl
  | cons pos t ih =>
    simp only [List.foldr_cons]
    rw [ih]
    cases hiv : pos.interviews interviews with
    | nil =>
      by_cases hst : (pos.status == PositionStatus.applied) = true <;> simp [hst]
    | cons iv ivs =>
      simp only [List.isEmpty_cons, Bool.and_false, Bool.false_eq_true, if_false,
        List.map_cons]
      rw [pyMinInterview_date]

/-- C5: the average response time is the mean (rounded to 1 decimal) of
the day differentials described by the spec: per position that is not
still in the unmodified applied state or has at least one interview, the
earliest interview date's non-negative offset from `application_date`;
`none` (never 0) when no position yields a valid differential.  In
particular a single "interviewing" position with one interview scheduled
3 days after its application date yields 3.0. -/
theorem average_response_time_matches_spec (positions : List Position)
    (interviews : List Interview) :
    (calculate_average_response_time positions interviews =
      if (specResponseDiffs positions interviews).isEmpty then none
      else some (round1 (((specResponseDiffs positions interviews).sum : ℚ) /
        ((specResponseDiffs positions interviews).length : ℚ)))) ∧
    calculate_average_response_time
      [⟨1, "A", PositionStatus.interviewing, sampleDate, sampleDT⟩]
      [⟨1, InterviewType.technical, InterviewPlace.video, ⟨⟨2024, 1, 13, by omega⟩, 0⟩,
        InterviewOutcome.pending⟩] = some 3 := by
  constructor
  · unfold calculate_average_response_time
    rw [response_times_eq]
  · have h1 : response_times_list
        [⟨1, "A", PositionStatus.interviewing, sampleDate, sampleDT⟩]
        [⟨1, InterviewType.technical, InterviewPlace.video, ⟨⟨2024, 1, 13, by omega⟩, 0⟩,
          InterviewOutcome.pending⟩] = [3] := by
      decide
    unfold calculate_average_response_time
    rw [h1]
    show some (round1 (((3 : ℤ) : ℚ) / ((1 : ℕ) : ℚ))) = some 3
    have h2 : ((3 : ℤ) : ℚ) / ((1 : ℕ) : ℚ) = ((3 : ℤ) : ℚ) := by norm_num
    rw [h2, round1_intCast]
    norm_num

theorem PyDate.nextMonthFirst_day (d : PyDate) : d.nextMonthFirst.day = 1 := by
  unfold PyDate.nextMonthFirst
  split <;> rfl

theorem monthOfIdx_monthIdx {d : PyDate} (hd : d.day = 1) : monthOfIdx (monthIdx d) = d := by
  have v := d.valid
  refine PyDate.ext_fields ?_ ?_ ?_
  · show (d.year * 12 + (d.month - 1)) / 12 = d.year
    omega
  · show (d.year * 12 + (d.month - 1)) % 12 + 1 = d.month
    omega
  · show 1 = d.day
    omega

theorem pyLeDate_firstOfMonth_of_le {s e : PyDate} (h : pyLeDate s e = true) :
    pyLeDate s.firstOfMonth e = true := by
  rw [pyLeDate_iff] at h ⊢
  have hv := s.valid
  show s.year < e.year ∨ (s.year = e.year ∧
    (s.month < e.month ∨ (s.month = e.month ∧ 1 ≤ e.day)))
  omega

theorem monthIdx_lt_of_not_le {c e : PyDate} (hc : c.day = 1)
    (h : ¬ pyLeDate c e = true) : monthIdx e < monthIdx c := by
  rw [pyLeDate_iff] at h
  have vc := c.valid
  have ve := e.valid
  unfold monthIdx
  omega

theorem monthsFrom_eq (c e : PyDate) (hc : c.day = 1) :
    monthsFrom c e =
      (List.range (if pyLeDate c e then monthIdx e + 1 - monthIdx c else 0)).map
        (fun k => monthOfIdx (monthIdx c + k)) := by
  induction c, e using monthsFrom.induct with
  | case1 c e h ih =>
    rw [monthsFrom, dif_pos h, if_pos h, ih (PyDate.nextMonthFirst_day c)]
    have hle := monthIdx_le_of_pyLeDate h
    have hnext := monthIdx_nextMonthFirst c
    by_cases h2 : pyLeDate c.nextMonthFirst e = true
    · have hle2 := monthIdx_le_of_pyLeDate h2
      rw [if_pos h2]
      have hn : monthIdx e + 1 - monthIdx c =
          (monthIdx e + 1 - monthIdx c.nextMonthFirst) + 1 := by omega
      rw [hn, List.range_succ_eq_map, List.map_cons, List.map_map]
      congr 1
      · rw [Nat.add_zero, monthOfIdx_monthIdx hc]
      · refine List.map_congr_left ?_
        intro k _
        show monthOfIdx (monthIdx c.nextMonthFirst + k) = monthOfIdx (monthIdx c + (k + 1))
        congr 1
        omega
    · have hlt := monthIdx_lt_of_not_le (PyDate.nextMonthFirst_day c) h2
      rw [if_neg h2]
      have hn : monthIdx e + 1 - monthIdx c = 1 := by omega
      rw [hn]
      show [c] = List.map _ (List.range 1)
      rw [show List.range 1 = [0] from rfl, List.map_cons, List.map_nil, Nat.add_zero,
        monthOfIdx_monthIdx hc]
  | case2 c e h =>
    rw [monthsFrom, dif_neg h, if_neg h]
    rfl

theorem foldl_bump_count {α : Type} (cond : α → Bool) (key : α → String) (l : List α)
    (g : String → Nat) (k : String) :
    (l.foldl (fun counts a =>
      if cond a then (fun x => if x == key a then counts x + 1 else counts x)
      else counts) g) k
    = g k + l.countP (fun a => cond a && (key a == k)) := by
  induction l generalizing g with
  | nil => simp
  | cons a t ih =>
    rw [List.foldl_cons, ih, List.countP_cons]
    by_cases hc : cond a = true
    · rw [if_pos hc]
      show (if k == key a then g k + 1 else g k) + _ = _
      by_cases hk : key a = k
      · rw [if_pos (by simp [hk]), hk]
        simp only [hc, Bool.true_and, beq_self_eq_true, if_pos]
        omega
      · rw [if_neg (by simp [Ne.symm hk])]
        have : (cond a && (key a == k)) = false := by simp [hk]
        rw [this]
        simp
    · rw [if_neg hc]
      have : (cond a && (key a == k)) = false := by
        simp only [Bool.and_eq_true] at *
        simp [hc]
      rw [this]
      simp

/-- Statement-side month range from the claim: the first day of every
calendar month from the start's month through the end's month, in order. -/
def specMonthsRange (s e : PyDate) : List PyDate :=
  (List.range (monthIdx e + 1 - monthIdx s)).map (fun k => monthOfIdx (monthIdx s + k))

/-- Statement-side month bucketing from the claim: one entry per calendar
month of the range, keyed "YYYY-MM", counting the items whose relevant
date lies within `[s, e]` and whose month key is the bucket's key. -/
def specMonthBuckets {α : Type} (dateOf : α → PyDate) (items : List α)
    (s e : PyDate) : List MonthEntry :=
  (specMonthsRange s e).map (fun m =>
    { month := monthKey m,
      count := items.countP (fun a =>
        (pyLeDate s (dateOf a) && pyLeDate (dateOf a) e) &&
          (monthKey (dateOf a) == monthKey m)) })

theorem calculate_applications_per_month_eq (positions : List Position) (s e : PyDate)
    (hse : pyLeDate s e = true) :
    calculate_applications_per_month positions s e =
      specMonthBuckets (fun p => p.application_date) positions s e := by
  unfold calculate_applications_per_month specMonthBuckets specMonthsRange
  rw [monthsFrom_eq _ _ rfl, if_pos (pyLeDate_firstOfMonth_of_le hse)]
  rw [show monthIdx s.firstOfMonth = monthIdx s from rfl, List.map_map, List.map_map]
  refine List.map_congr_left ?_
  intro k _
  show ({ month := monthKey (monthOfIdx (monthIdx s + k)), count := _ } : MonthEntry) = _
  rw [foldl_bump_count (fun p => pyLeDate s p.application_date && pyLeDate p.application_date e)
    (fun p => monthKey p.application_date) positions (fun _ => 0)
    (monthKey (monthOfIdx (monthIdx s + k)))]
  simp

theorem calculate_interviews_per_month_eq (interviews : List Interview) (s e : PyDate)
    (hse : pyLeDate s e = true) :
    calculate_interviews_per_month interviews s e =
      specMonthBuckets (fun iv => iv.scheduled_date.date) interviews s e := by
  unfold calculate_interviews_per_month specMonthBuckets specMonthsRange
  rw [monthsFrom_eq _ _ rfl, if_pos (pyLeDate_firstOfMonth_of_le hse)]
  rw [show monthIdx s.firstOfMonth = monthIdx s from rfl, List.map_map, List.map_map]
  refine List.map_congr_left ?_
  intro k _
  show ({ month := monthKey (monthOfIdx (monthIdx s + k)), count := _ } : MonthEntry) = _
  rw [foldl_bump_count
    (fun iv => pyLeDate s iv.scheduled_date.date && pyLeDate iv.scheduled_date.date e)
    (fun iv => monthKey iv.scheduled_date.date) interviews (fun _ => 0)
    (monthKey (monthOfIdx (monthIdx s + k)))]
  simp

/-- C4: for start <= end, both per-month sequences equal the spec-side
bucketing: an ordered sequence with exactly one entry per calendar month
(key "YYYY-MM") from the start's month through the end's month inclusive,
each entry counting exactly the in-range items with that month key (so
months with no events carry count zero); and an out-of-range item changes
nothing: it is counted in no bucket and does not extend the sequence. -/
theorem month_bucketing_spec (positions : List Position) (interviews : List Interview)
    (s e : PyDate) (hse : pyLeDate s e = true) :
    calculate_applications_per_month positions s e =
      specMonthBuckets (fun p => p.application_date) positions s e ∧
    calculate_interviews_per_month interviews s e =
      specMonthBuckets (fun iv => iv.scheduled_date.date) interviews s e ∧
    (∀ p : Position,
      ¬ (pyLeDate s p.application_date = true ∧ pyLeDate p.application_date e = true) →
      calculate_applications_per_month (p :: positions) s e =
        calculate_applications_per_month positions s e) ∧
    (∀ iv : Interview,
      ¬ (pyLeDate s iv.scheduled_date.date = true ∧
          pyLeDate iv.scheduled_date.date e = true) →
      calculate_interviews_per_month (iv :: interviews) s e =
        calculate_interviews_per_month interviews s e) := by
  refine ⟨calculate_applications_per_month_eq positions s e hse,
    calculate_interviews_per_month_eq interviews s e hse, ?_, ?_⟩
  · intro p hp
    rw [calculate_applications_per_month_eq _ _ _ hse,
      calculate_applications_per_month_eq _ _ _ hse]
    unfold specMonthBuckets
    refine List.map_congr_left ?_
    intro m _
    have hcond : ((pyLeDate s p.application_date && pyLeDate p.application_date e) &&
        (monthKey p.application_date == monthKey m)) = false := by
      rcases Bool.eq_false_or_eq_true (pyLeDate s p.application_date) with h1 | h1 <;>
        rcases Bool.eq_false_or_eq_true (pyLeDate p.application_date e) with h2 | h2 <;>
        simp [h1, h2] at hp ⊢
    rw [List.countP_cons, hcond]
    simp
  · intro iv hiv
    rw [calculate_interviews_per_month_eq _ _ _ hse,
      calculate_interviews_per_month_eq _ _ _ hse]
    unfold specMonthBuckets
    refine List.map_congr_left ?_
    intro m _
    have hcond : ((pyLeDate s iv.scheduled_date.date &&
        pyLeDate iv.scheduled_date.date e) &&
        (monthKey iv.scheduled_date.date == monthKey m)) = false := by
      rcases Bool.eq_false_or_eq_true (pyLeDate s iv.scheduled_date.date) with h1 | h1 <;>
        rcases Bool.eq_false_or_eq_true (pyLeDate iv.scheduled_date.date e) with h2 | h2 <;>
        simp [h1, h2] at hiv ⊢
    rw [List.countP_cons, hcond]
    simp

/-- C4 witness: the bucketing theorem applied on the period
2024-01-10 .. 2024-03-05 with a single January position. -/
theorem month_bucketing_spec_witness :
    pyLeDate sampleDate sampleDate2 = true ∧
    calculate_applications_per_month [samplePos 1 "A" PositionStatus.applied]
        sampleDate sampleDate2 =
      specMonthBuckets (fun p => p.application_date)
        [samplePos 1 "A" PositionStatus.applied] sampleDate sampleDate2 :=
  ⟨by decide,
   (month_bucketing_spec [samplePos 1 "A" PositionStatus.applied] [] sampleDate sampleDate2
     (by decide)).1⟩

theorem roundHalfEven_add_compl (u : ℚ) (N : ℤ) (hN : N % 2 = 0) :
    roundHalfEven u + roundHalfEven ((N : ℚ) - u) = N := by
  have hf : ((⌊u⌋ : ℤ) : ℚ) ≤ u := Int.floor_le u
  have hf2 : u < ⌊u⌋ + 1 := Int.lt_floor_add_one u
  rcases eq_or_lt_of_le (show (0 : ℚ) ≤ u - ⌊u⌋ by linarith) with hr0 | hrpos
  · have hu : u = ((⌊u⌋ : ℤ) : ℚ) := by linarith
    rw [hu, roundHalfEven_intCast,
      show ((N : ℚ) - ((⌊u⌋ : ℤ) : ℚ)) = ((N - ⌊u⌋ : ℤ) : ℚ) by push_cast; ring,
      roundHalfEven_intCast]
    omega
  · have hfloor2 : ⌊(N : ℚ) - u⌋ = N - ⌊u⌋ - 1 := by
      rw [Int.floor_eq_iff]
      constructor
      · push_cast
        linarith
      · push_cast
        linarith
    unfold roundHalfEven
    rw [hfloor2]
    have hr' : ((N : ℚ) - u) - ((N - ⌊u⌋ - 1 : ℤ) : ℚ) = 1 - (u - ⌊u⌋) := by
      push_cast
      ring
    rw [hr']
    rcases lt_trichotomy (u - (⌊u⌋ : ℚ)) (1/2) with hlt | heq | hgt
    · rw [if_pos hlt, if_neg (by linarith), if_pos (by linarith)]
      omega
    · rw [if_neg (show ¬ (u - ((⌊u⌋ : ℤ) : ℚ) < 1/2) by rw [heq]; norm_num),
        if_neg (show ¬ ((1 : ℚ)/2 < u - ((⌊u⌋ : ℤ) : ℚ)) by rw [heq]; norm_num),
        if_neg (show ¬ ((1 : ℚ) - (u - ((⌊u⌋ : ℤ) : ℚ)) < 1/2) by rw [heq]; norm_num),
        if_neg (show ¬ ((1 : ℚ)/2 < 1 - (u - ((⌊u⌋ : ℤ) : ℚ))) by rw [heq]; norm_num)]
      by_cases hpar : ⌊u⌋ % 2 = 0
      · rw [if_pos hpar, if_neg (show ¬ ((N - ⌊u⌋ - 1) % 2 = 0) by omega)]
        omega
      · rw [if_neg hpar, if_pos (show (N - ⌊u⌋ - 1) % 2 = 0 by omega)]
        omega
    · rw [if_neg (by linarith), if_pos hgt, if_pos (by linarith)]
      omega

theorem countP_applied_complement (l : List Position) :
    l.countP (fun p => p.status != PositionStatus.applied) +
      l.countP (fun p => p.status == PositionStatus.applied) = l.length := by
  induction l with
  | nil => rfl
  | cons p t ih =>
    rw [List.countP_cons, List.countP_cons]
    cases hp : p.status == PositionStatus.applied <;> simp [bne, hp] at ih ⊢ <;> omega

/-- C8: for every non-empty position list, the response rate plus the
rounded percentage of positions still in status "applied" is exactly 100
(round-half-to-even splits exact .005 ties complementarily, so the two
rounded percentages always sum to 100), because a response is defined as
status different from "applied". -/
theorem response_rate_plus_applied_is_100 (positions : List Position)
    (h : positions ≠ []) :
    calculate_response_rate positions +
      round2 (((positions.countP (fun p => p.status == PositionStatus.applied)) : ℚ) /
        (positions.length : ℚ) * 100) = 100 := by
  unfold calculate_response_rate
  rw [if_neg (by simp [h])]
  show ((roundHalfEven ((((positions.countP (fun p => p.status != PositionStatus.applied)) : ℚ) /
      (positions.length : ℚ) * 100) * 100) : ℤ) : ℚ) / 100 +
    ((roundHalfEven ((((positions.countP (fun p => p.status == PositionStatus.applied)) : ℚ) /
      (positions.length : ℚ) * 100) * 100) : ℤ) : ℚ) / 100 = 100
  have hn : (0 : ℚ) < (positions.length : ℚ) := by
    exact_mod_cast List.length_pos.mpr h
  have hcount := countP_applied_complement positions
  have hsum : (((positions.countP (fun p => p.status == PositionStatus.applied)) : ℚ) /
      (positions.length : ℚ) * 100) * 100 =
      ((10000 : ℤ) : ℚ) -
        (((positions.countP (fun p => p.status != PositionStatus.applied)) : ℚ) /
          (positions.length : ℚ) * 100) * 100 := by
    field_simp
    have : ((positions.countP (fun p => p.status != PositionStatus.applied) : ℚ) +
        (positions.countP (fun p => p.status == PositionStatus.applied) : ℚ)) =
        (positions.length : ℚ) := by
      exact_mod_cast hcount
    linarith
  rw [hsum]
  rw [div_add_div_same, ← Int.cast_add,
    roundHalfEven_add_compl _ 10000 (by decide)]
  norm_num

/-- C8 witness: the complement identity applied to a concrete singleton
list. -/
theorem response_rate_plus_applied_witness :
    ([samplePos 1 "A" PositionStatus.applied] ≠ ([] : List Position)) ∧
    calculate_response_rate [samplePos 1 "A" PositionStatus.applied] +
      round2 ((([samplePos 1 "A" PositionStatus.applied].countP
          (fun p => p.status == PositionStatus.applied)) : ℚ) /
        (([samplePos 1 "A" PositionStatus.applied] : List Position).length : ℚ) * 100) =
      100 :=
  ⟨by simp,
   response_rate_plus_applied_is_100 [samplePos 1 "A" PositionStatus.applied] (by simp)⟩

theorem monthlyApplyApplied_at (g : Nat → MonthlyStat) (p : Position) (m : Nat) :
    monthlyApplyApplied g p m =
      { month := (g m).month,
        positions_applied := (g m).positions_applied +
          (if m = p.application_date.month then 1 else 0),
        interviews_conducted := (g m).interviews_conducted,
        offers_received := (g m).offers_received } := by
  unfold monthlyApplyApplied
  by_cases hm : m = p.application_date.month
  · rw [if_pos hm, if_pos hm]
  · rw [if_neg hm, if_neg hm]
    exact rfl

theorem monthlyApplyInterviews_at (year : Nat) (ivs : List Interview)
    (g : Nat → MonthlyStat) (p : Position) (m : Nat) :
    monthlyApplyInterviews year ivs g p m =
      { month := (g m).month,
        positions_applied := (g m).positions_applied,
        interviews_conducted := (g m).interviews_conducted +
          (p.interviews ivs).countP (fun iv =>
            iv.scheduled_date.date.year == year && iv.scheduled_date.date.month == m),
        offers_received := (g m).offers_received } := rfl

theorem monthlyApplyOffer_at (year : Nat) (g : Nat → MonthlyStat) (p : Position) (m : Nat) :
    monthlyApplyOffer year g p m =
      { month := (g m).month,
        positions_applied := (g m).positions_applied,
        interviews_conducted := (g m).interviews_conducted,
        offers_received := (g m).offers_received +
          (if p.status == PositionStatus.offer && p.updated_at.date.year == year &&
              p.updated_at.date.month == m then 1 else 0) } := by
  unfold monthlyApplyOffer
  by_cases hoff : (p.status == PositionStatus.offer && p.updated_at.date.year == year &&
      p.updated_at.date.month == m) = true
  · rw [if_pos hoff, if_pos hoff]
  · rw [if_neg hoff, if_neg hoff]
    exact rfl

theorem monthlyApply_at (year : Nat) (ivs : List Interview) (g : Nat → MonthlyStat)
    (p : Position) (m : Nat) :
    monthlyApply year ivs g p m =
      { month := (g m).month,
        positions_applied := (g m).positions_applied +
          (if m = p.application_date.month then 1 else 0),
        interviews_conducted := (g m).interviews_conducted +
          (p.interviews ivs).countP (fun iv =>
            iv.scheduled_date.date.year == year && iv.scheduled_date.date.month == m),
        offers_received := (g m).offers_received +
          (if p.status == PositionStatus.offer && p.updated_at.date.year == year &&
              p.updated_at.date.month == m then 1 else 0) } := by
  show monthlyApplyOffer year
      (monthlyApplyInterviews year ivs (monthlyApplyApplied g p) p) p m = _
  rw [monthlyApplyOffer_at, monthlyApplyInterviews_at, monthlyApplyApplied_at]

theorem monthlyFold_spec (year : Nat) (ivs : List Interview) (l : List Position)
    (g : Nat → MonthlyStat) (m : Nat) :
    (l.foldl (monthlyApply year ivs) g) m =
      { month := (g m).month,
        positions_applied := (g m).positions_applied +
          l.countP (fun p => p.application_date.month == m),
        interviews_conducted := (g m).interviews_conducted +
          (l.map (fun p => (p.interviews ivs).countP (fun iv =>
            iv.scheduled_date.date.year == year &&
              iv.scheduled_date.date.month == m))).sum,
        offers_received := (g m).offers_received +
          l.countP (fun p => p.status == PositionStatus.offer &&
            p.updated_at.date.year == year && p.updated_at.date.month == m) } := by
  induction l generalizing g with
  | nil => simp
  | cons p t ih =>
    rw [List.foldl_cons, ih, monthlyApply_at]
    have hif : (if (p.application_date.month == m) = true then (1 : Nat) else 0) =
        (if m = p.application_date.month then 1 else 0) := by
      by_cases h : m = p.application_date.month
      · subst h
        simp
      · have hne : ¬ ((p.application_date.month == m) = true) := by
          simp only [beq_iff_eq]
          exact fun hh => h hh.symm
        rw [if_neg hne, if_neg h]
    simp only [List.countP_cons, List.map_cons, List.sum_cons, MonthlyStat.mk.injEq, hif,
      true_and]
    omega

/-- C3 (amended): `get_monthly_statistics` returns exactly 12 entries,
January through December in order; `positions_applied` for a month counts
the positions whose `application_date` falls in the requested year and
that month; `interviews_conducted` counts, among the positions applied in
the requested year, their interviews whose `scheduled_date` year equals
the requested year, attributed to the interview's own month; and
`offers_received` counts, among the positions applied in the requested
year, those with status "offer" and `updated_at` in the requested year,
attributed to `updated_at`'s month.  (The code's query keeps only
positions applied in the requested year, so interviews and offers of
positions applied in another year are not counted — see the
counterexample for the claim's unrestricted reading.) -/
theorem monthly_statistics_closed (positions : List Position)
    (interviews : List Interview) (year : Nat) :
    (get_monthly_statistics positions interviews year).map (fun e => e.month) =
      ["January", "February", "March", "April", "May", "June", "July", "August",
       "September", "October", "November", "December"] ∧
    get_monthly_statistics positions interviews year =
      (List.range 12).map (fun i =>
        { month := monthName (i + 1),
          positions_applied :=
            (positions.filter (fun p => p.application_date.year == year)).countP
              (fun p => p.application_date.month == i + 1),
          interviews_conducted :=
            ((positions.filter (fun p => p.application_date.year == year)).map
              (fun p => (p.interviews interviews).countP (fun iv =>
                iv.scheduled_date.date.year == year &&
                  iv.scheduled_date.date.month == i + 1))).sum,
          offers_received :=
            (positions.filter (fun p => p.application_date.year == year)).countP
              (fun p => p.status == PositionStatus.offer &&
                p.updated_at.date.year == year &&
                  p.updated_at.date.month == i + 1) }) := by
  have hmain : get_monthly_statistics positions interviews year =
      (List.range 12).map (fun i =>
        { month := monthName (i + 1),
          positions_applied :=
            (positions.filter (fun p => p.application_date.year == year)).countP
              (fun p => p.application_date.month == i + 1),
          interviews_conducted :=
            ((positions.filter (fun p => p.application_date.year == year)).map
              (fun p => (p.interviews interviews).countP (fun iv =>
                iv.scheduled_date.date.year == year &&
                  iv.scheduled_date.date.month == i + 1))).sum,
          offers_received :=
            (positions.filter (fun p => p.application_date.year == year)).countP
              (fun p => p.status == PositionStatus.offer &&
                p.updated_at.date.year == year &&
                  p.updated_at.date.month == i + 1) }) := by
    unfold get_monthly_statistics
    refine List.map_congr_left ?_
    intro i _
    rw [monthlyFold_spec]
    simp [monthlyInit]
  refine ⟨?_, hmain⟩
  rw [hmain, List.map_map]
  rfl

/-- Fixture for the C3 counterexample: a position applied in 2023. -/
def cexPos : Position :=
  ⟨1, "A", PositionStatus.applied, ⟨2023, 6, 10, by omega⟩, ⟨⟨2023, 6, 10, by omega⟩, 0⟩⟩

/-- Fixture for the C3 counterexample: its interview scheduled 2024-03-05. -/
def cexIv : Interview :=
  ⟨1, InterviewType.technical, InterviewPlace.video, ⟨⟨2024, 3, 5, by omega⟩, 0⟩,
    InterviewOutcome.pending⟩

/-- C3 counterexample: an interview scheduled in March of the requested
year 2024 but attached to a position applied in 2023 is counted in no
month (every `interviews_conducted` is 0), while the claim's "every
interview whose scheduled_date year equals the requested year" predicts a
count of 1 for March. -/
theorem monthly_statistics_cex :
    ((get_monthly_statistics [cexPos] [cexIv] 2024).map
      (fun e => e.interviews_conducted)) = [0, 0, 0, 0, 0, 0, 0, 0, 0, 0, 0, 0] ∧
    ([cexIv].countP (fun iv => iv.scheduled_date.date.year == 2024 &&
      iv.scheduled_date.date.month == 3)) = 1 := by
  constructor
  · decide
  · decide

/-- Per-company record of the single-company fixture, used by the C6
witness. -/
def acmeStats : CompanyStatistics :=
  calculate_company_statistics "Acme"
    ([samplePos 1 "Acme" PositionStatus.applied].filter (fun p => p.company == "Acme"))
    (([samplePos 1 "Acme" PositionStatus.applied].filter
      (fun p => p.company == "Acme")).foldr (fun p acc => p.interviews [] ++ acc) [])

/-- C6 witness: the per-company characterization applied to the company
record of a concrete singleton input, discharging the membership
hypothesis. -/
theorem company_statistics_grouped_witness :
    acmeStats.total_applications =
      ([samplePos 1 "Acme" PositionStatus.applied].filter
        (fun p => p.company == acmeStats.company_name)).length ∧
    0 < ([samplePos 1 "Acme" PositionStatus.applied].filter
        (fun p => p.company == acmeStats.company_name)).length ∧
    acmeStats.success_rate = round2
      (((([samplePos 1 "Acme" PositionStatus.applied].filter
          (fun p => p.company == acmeStats.company_name)).countP
          (fun p => p.status == PositionStatus.offer)) : ℚ) /
        (([samplePos 1 "Acme" PositionStatus.applied].filter
          (fun p => p.company == acmeStats.company_name)).length : ℚ) * 100) :=
  (company_statistics_grouped_and_sorted [samplePos 1 "Acme" PositionStatus.applied] []).2.2.1
    acmeStats
    (by rw [get_company_statistics_companies]
        exact List.mem_mergeSort.mpr (List.mem_map_of_mem _ (by decide)))

end JobTracker







